import Mathlib

/-!
Verification of the duration codec and threshold extractor implemented in
fbcnms-packages/fbcnms-alarms/components/rules/PrometheusEditor/PrometheusEditor.js,
together with the parse lifecycle of the hook useThresholdExpressionEditorState.

Numbers: the JavaScript code only manipulates non-negative integers in the
duration codec (values produced by parseInt on digit runs), modelled as Nat.
The scalar value of a threshold expression is modelled as Int.
-/

namespace PromEditor

/-- Duration record produced by parseTimeString (source lines 406-410). -/
structure Duration where
  hours : Nat
  minutes : Nat
  seconds : Nat
deriving DecidableEq, Repr

/-- Left fold step computing the base-10 value of a digit run one character at
a time; 48 is the code point of the digit zero. On a nonempty all-digit run
this fold computes exactly the value JavaScript parseInt(run, 10) returns. -/
def digitStep (a : Nat) (c : Char) : Nat := 10 * a + (c.toNat - 48)

/-- Base-10 integer value of a digit run. -/
def digitsVal (ds : List Char) : Nat := ds.foldl digitStep 0

/-- Scanner embedding the anchored regular expression of parseTimeString
(source line 416), namely a full match of ((\d+)h)*((\d+)m)*((\d+)s)* against
the whole string, with the JavaScript semantics of a capture group under a
star: the group reports the text of its LAST repetition. The decomposition of
a matching string into digit-run/unit-letter segments is unique (a digit run
must stop at the first non-digit, which must then be the unit letter), so the
regex match is equivalent to this single left-to-right pass: phase 0 permits
h, m and s segments, phase 1 permits m and s, phase 2 permits only s, which
enforces the fixed order of the three starred groups; acc carries the value
of the pending digit run (none when no digits are pending). The result is
none when the string fails to match, otherwise the three last-repetition
capture values (none for a group that matched zero times). -/
def scanDuration : List Char → Nat → Option Nat → Option Nat → Option Nat →
    Option Nat → Option (Option Nat × Option Nat × Option Nat)
  | [], _, acc, h, m, s => if acc.isSome then none else some (h, m, s)
  | c :: cs, phase, acc, h, m, s =>
    if c.isDigit then
      scanDuration cs phase (some (digitStep (acc.getD 0) c)) h m s
    else
      match acc with
      | none => none
      | some v =>
        if c = 'h' then
          if phase = 0 then scanDuration cs 0 none (some v) m s else none
        else if c = 'm' then
          if phase ≤ 1 then scanDuration cs 1 none h (some v) s else none
        else if c = 's' then
          scanDuration cs 2 none h m (some v)
        else none

/-- Matching the duration regex against a whole string: timeStamp.match of
source line 417, restricted to the three capture groups the code reads
(indices 2, 4 and 6). -/
def matchDuration (s : String) : Option (Option Nat × Option Nat × Option Nat) :=
  scanDuration s.data 0 none none none none

/-- parseTimeString (source lines 412-426). An empty string and a string the
regex rejects both yield the zero duration; otherwise each capture group is
converted with parseInt(g, 10) || 0, which is the base-10 value of the
captured run, or 0 when the group is absent (parseInt of undefined is NaN)
or when the captured run has value 0. The function is total: no input raises. -/
def parseTimeString (timeStamp : String) : Duration :=
  if timeStamp = "" then ⟨0, 0, 0⟩
  else
    match matchDuration timeStamp with
    | none => ⟨0, 0, 0⟩
    | some (h, m, s) => ⟨h.getD 0, m.getD 0, s.getD 0⟩

/-- Result record of getMostSignificantTime (source lines 428-437). -/
structure MostSignificantTime where
  timeNumber : Nat
  timeUnit : String
deriving DecidableEq, Repr

/-- getMostSignificantTime (source lines 428-437); the JavaScript truthiness
tests on the numeric fields are tests against zero for the Nat values in play. -/
def getMostSignificantTime (duration : Duration) : MostSignificantTime :=
  if duration.hours ≠ 0 then ⟨duration.hours, "h"⟩
  else if duration.minutes ≠ 0 then ⟨duration.minutes, "m"⟩
  else ⟨duration.seconds, "s"⟩

/-- Decimal digit characters of n, most significant first, prepended to acc.
The fuel argument only drives structural recursion; any fuel above n is
enough. This is the standard decimal rendering a JavaScript template literal
applies to a non-negative integer number. -/
def decRun : Nat → Nat → List Char → List Char
  | 0, _, acc => acc
  | fuel + 1, n, acc =>
    let acc2 := Char.ofNat (48 + n % 10) :: acc
    if n < 10 then acc2 else decRun fuel (n / 10) acc2

/-- Decimal string of a non-negative integer, as a JavaScript template
literal renders it. -/
def natToStr (n : Nat) : String := ⟨decRun (n + 1) n []⟩

/-- Duration formatting performed by toAlertConfig (source line 386): the
template literal concatenating timeNumber and timeUnit into the for field. -/
def formatDuration (timeNumber : Nat) (timeUnit : String) : String :=
  natToStr timeNumber ++ timeUnit

/-- Modelled from the spec wording of the claims: a matcher for the grammar
(\d+h)?(\d+m)?(\d+s)? in that fixed order, each unit segment appearing at
most once. This is the spec-side grammar, to be compared with the code-side
matchDuration, whose starred groups also accept repeated segments. The
pending flag records an unterminated digit run. -/
def specScanOpt : List Char → Nat → Bool → Bool
  | [], _, pending => !pending
  | c :: cs, phase, pending =>
    if c.isDigit then specScanOpt cs phase true
    else if pending then
      if c = 'h' then (if phase = 0 then specScanOpt cs 1 false else false)
      else if c = 'm' then (if phase ≤ 1 then specScanOpt cs 2 false else false)
      else if c = 's' then (if phase ≤ 2 then specScanOpt cs 3 false else false)
      else false
    else false

/-- Modelled from the spec wording of the claims: whole-string match of the
grammar (\d+h)?(\d+m)?(\d+s)? in that fixed order. -/
def specOrderedOptGrammar (s : String) : Bool := specScanOpt s.data 0 false

/-- One unit segment of a duration string: a digit run followed by the unit. -/
def seg (ds : List Char) (u : Char) : List Char := ds ++ [u]

/-- Concatenation of several segments of the same unit. -/
def segs (dss : List (List Char)) (u : Char) : List Char :=
  (dss.map (fun ds => seg ds u)).flatten

/-- A digit run acceptable to the regex: nonempty, all characters digits. -/
def goodDigits (ds : List Char) : Prop := ds ≠ [] ∧ ∀ c ∈ ds, c.isDigit = true

/-- Digit-run wellformedness is decidable, so witnesses can be checked by
evaluation. -/
instance (ds : List Char) : Decidable (goodDigits ds) := by
  unfold goodDigits
  infer_instance

/-- Value of the last digit run in a list of runs, 0 when the list is empty. -/
def lastVal : List (List Char) → Nat
  | [] => 0
  | [ds] => digitsVal ds
  | _ :: ds2 :: rest => lastVal (ds2 :: rest)

/-- Register value after feeding a list of digit runs to a last-wins register
starting from a. -/
def runLast : List (List Char) → Option Nat → Option Nat
  | [], a => a
  | ds :: rest, _ => runLast rest (some (digitsVal ds))

/-- Optional single segment, for the grammar with each unit at most once. -/
def optSeg (o : Option (List Char)) (u : Char) : List Char :=
  match o with
  | none => []
  | some ds => seg ds u

/-- Value of an optional digit run, 0 when absent. -/
def optVal (o : Option (List Char)) : Nat :=
  match o with
  | none => 0
  | some ds => digitsVal ds

/-- Modelled from the spec: the Labels class of the external PromQL AST
library (consumed via import, its source not part of this package), per the
data model: an ordered set of label name and value pairs with unique names. -/
structure Labels where
  pairs : List (String × String)
deriving DecidableEq, Repr

/-- Modelled from the spec: removal of a label by name, as used for the
reserved label networkID; keeps the remaining pairs in order. -/
def Labels.removeByName (l : Labels) (n : String) : Labels :=
  ⟨l.pairs.filter (fun p => p.1 ≠ n)⟩

/-- Modelled from the spec: the comparator vocabulary of the six relational
operators. In the library, comparators are class instances (objects). -/
inductive BinaryComparator where
  | eq
  | neq
  | gt
  | lt
  | gte
  | lte
deriving DecidableEq, Repr

/-- Modelled from the spec: a binary operator of the AST is either one of the
six comparators, represented in the library as an object, or another operator
such as an arithmetic one, represented as a plain string. -/
inductive BinaryOperator where
  | comp (c : BinaryComparator)
  | arith (op : String)
deriving DecidableEq, Repr

/-- Modelled from the spec: the expression AST, polymorphic over variants
including at minimum BinaryOperation, InstantSelector and Scalar; otherNode
stands for every other variant (aggregations, functions, range selectors and
so on). An instant selector carries an optional name and an optional
reference to its Labels object; label objects live in a store (a list of
Labels indexed by position) so that the in-place mutation performed by
removeByName on a shared object is observable in the model. -/
inductive Expression where
  | binaryOperation (operator : BinaryOperator) (lh rh : Expression)
  | instantSelector (selectorName : Option String) (labels : Option Nat)
  | scalar (value : Int)
  | otherNode
deriving DecidableEq, Repr

/-- asBinaryComparator (source lines 468-475): the code returns the operator
unchanged when it is an object and null otherwise; in the modelled operator
type the objects are exactly the six comparators and every other operator is
a string. -/
def asBinaryComparator (operator : BinaryOperator) : Option BinaryComparator :=
  match operator with
  | .comp c => some c
  | .arith _ => none

/-- Record returned by getThresholdExpression (source lines 460-465). The
filters field of the source record is the Labels object itself; here it is
the reference (store index) of that object. -/
structure ThresholdExpressionRef where
  metricName : String
  filtersRef : Nat
  comparator : BinaryComparator
  value : Int
deriving DecidableEq, Repr

/-- getThresholdExpression (source lines 439-466), with the Labels store
passed and returned explicitly so that the in-place removeByName mutation of
source line 455 is visible. When the selector carries no labels object, the
code allocates a fresh empty Labels (source line 454), modelled by appending
to the store. Note the mutation happens before the comparator guard. -/
def getThresholdExpression (store : List Labels) (exp : Expression) :
    List Labels × Option ThresholdExpressionRef :=
  match exp with
  | .binaryOperation operator (.instantSelector selectorName labels) (.scalar v) =>
    let metricName := selectorName.getD ""
    let refStore : Nat × List Labels :=
      match labels with
      | some r => (r, store)
      | none => (store.length, store ++ [⟨[]⟩])
    let filtersRef := refStore.1
    let store1 := refStore.2
    let filters := ((store1.get? filtersRef).getD ⟨[]⟩).removeByName "networkID"
    let store2 := store1.set filtersRef filters
    match asBinaryComparator operator with
    | none => (store2, none)
    | some comparator => (store2, some ⟨metricName, filtersRef, comparator, v⟩)
  | _ => (store, none)

/-- Labels value a selector carries, read through the store; an absent labels
field denotes no object, for which the code allocates an empty Labels. -/
def labelsValue (store : List Labels) (labels : Option Nat) : Labels :=
  match labels with
  | some r => (store.get? r).getD ⟨[]⟩
  | none => ⟨[]⟩

/-- Store index of the filters object of a successful extraction: the
selector labels object itself when present, else the freshly allocated one. -/
def thresholdFiltersRef (store : List Labels) (labels : Option Nat) : Nat :=
  match labels with
  | some r => r
  | none => store.length

/-- ThresholdExpression record as held in the editor state (source lines
490-498): metric name, comparator, scalar value and the Labels value of the
filters object. -/
structure ThresholdExpression where
  metricName : String
  comparator : BinaryComparator
  value : Int
  filters : Labels
deriving DecidableEq, Repr

/-- Value-level view of getThresholdExpression as the hook consumes it: the
returned record with the filters reference dereferenced in the post-call
store. -/
def getThresholdExpressionV (store : List Labels) (exp : Expression) :
    Option ThresholdExpression :=
  match getThresholdExpression store exp with
  | (store2, some t) =>
    some ⟨t.metricName, t.comparator, t.value, (store2.get? t.filtersRef).getD ⟨[]⟩⟩
  | (_, none) => none

/-- Initial threshold expression of the hook state (source lines 490-498):
metric name empty, comparator ==, value 0, empty filters. -/
def defaultThresholdExpression : ThresholdExpression := ⟨"", .eq, 0, ⟨[]⟩⟩

/-- Modelled from the spec: the external parser Parse of PromQLParser
(consumed via import, its source not part of this package); it returns an
AST on success and throws a ParseError on malformed input. A parser is any
function from source strings to an optional AST with its labels store; none
models a throw. -/
def ParserFn : Type := String → Option (List Labels × Expression)

/-- State of useThresholdExpressionEditorState (source lines 477-547)
observable to the component: the cached threshold expression, the editor
mode flag, the number of snackbar warnings raised, whether Parse has been
invoked, and whether the mount effect has committed. -/
structure EditorState where
  thresholdExpression : ThresholdExpression
  advancedEditorMode : Bool
  warningCount : Nat
  parserInvoked : Bool
  effectRan : Bool
deriving DecidableEq, Repr

/-- Hook state right after useState initialization (source lines 490-501):
default threshold record, and advanced mode exactly when the threshold
editor is not enabled (JavaScript negation of the optional boolean treats an
absent value as false). -/
def initialEditorState (thresholdEditorEnabled : Option Bool) : EditorState :=
  ⟨defaultThresholdExpression, !(thresholdEditorEnabled.getD false), 0, false, false⟩

/-- Memoized parse result (source lines 505-513): the memo body always calls
Parse(expression), whatever the expression is, and maps a throw to null;
calling Parse on an absent (undefined) expression throws inside the parser
and is likewise caught. -/
def parsedExpression (parse : ParserFn) (expression : Option String) :
    Option (List Labels × Expression) :=
  match expression with
  | none => none
  | some src => parse src

/-- JavaScript falsiness of the optional expression string (source line 519):
true for an absent expression and for the empty string. -/
def isEmptyExpr (expression : Option String) : Bool :=
  match expression with
  | none => true
  | some s => s = ""

/-- Body of the mount effect (source lines 518-539): an empty or absent
expression forces simple mode; a parsed expression is routed through
getThresholdExpression, seeding threshold mode on success and advanced mode
on a null extraction; a failed parse raises one snackbar warning. -/
def effectBody (parse : ParserFn) (expression : Option String)
    (s : EditorState) : EditorState :=
  if isEmptyExpr expression then
    { s with advancedEditorMode := false }
  else
    match parsedExpression parse expression with
    | some (store, e) =>
      match getThresholdExpressionV store e with
      | some t => { s with advancedEditorMode := false, thresholdExpression := t }
      | none => { s with advancedEditorMode := true }
    | none => { s with warningCount := s.warningCount + 1 }

/-- One committed render of the hook. The memo of source line 505 has an
empty dependency list, so Parse is invoked during the first render only and
the memoized value is referentially stable afterwards; the effect of source
line 518 depends on exactly that memoized value, so it runs on the first
commit and is skipped on every later render. -/
def renderStep (parse : ParserFn) (expression : Option String)
    (s : EditorState) : EditorState :=
  if s.effectRan then s
  else effectBody parse expression { s with parserInvoked := true, effectRan := true }

/-- Hook state after n renders of the component with a fixed expression
value: the initial state followed by n committed renders. -/
def stateAfterRenders (parse : ParserFn) (expression : Option String)
    (thresholdEditorEnabled : Option Bool) : Nat → EditorState
  | 0 => initialEditorState thresholdEditorEnabled
  | n + 1 => renderStep parse expression
      (stateAfterRenders parse expression thresholdEditorEnabled n)

/-- Scanning the empty remainder with no pending digits reports the three
capture registers. -/
lemma scanDuration_nil (phase : Nat) (h m s : Option Nat) :
    scanDuration [] phase none h m s = some (h, m, s) := rfl

/-- Scanning a digit extends the pending run. -/
lemma scan_cons_digit (c : Char) (cs : List Char) (phase : Nat)
    (acc h m s : Option Nat) (hc : c.isDigit = true) :
    scanDuration (c :: cs) phase acc h m s
      = scanDuration cs phase (some (digitStep (acc.getD 0) c)) h m s := by
  simp [scanDuration, hc]

/-- Scanning the letter h in phase 0 with a pending run stores the run as the
h capture. -/
lemma scan_cons_h (cs : List Char) (v : Nat) (h m s : Option Nat) :
    scanDuration ('h' :: cs) 0 (some v) h m s
      = scanDuration cs 0 none (some v) m s := by
  simp [scanDuration]

/-- Scanning the letter m in phase at most 1 with a pending run stores the
run as the m capture. -/
lemma scan_cons_m (cs : List Char) (phase v : Nat) (h m s : Option Nat)
    (hp : phase ≤ 1) :
    scanDuration ('m' :: cs) phase (some v) h m s
      = scanDuration cs 1 none h (some v) s := by
  simp [scanDuration, hp]

/-- Scanning the letter s with a pending run stores the run as the s capture. -/
lemma scan_cons_s (cs : List Char) (phase v : Nat) (h m s : Option Nat) :
    scanDuration ('s' :: cs) phase (some v) h m s
      = scanDuration cs 2 none h m (some v) := by
  simp [scanDuration]

/-- Scanning a run of digits onto an already pending value folds the digits
into the pending value. -/
lemma scan_digits (ds : List Char) (cs : List Char) (phase : Nat) (a : Nat)
    (h m s : Option Nat) (hd : ∀ c ∈ ds, c.isDigit = true) :
    scanDuration (ds ++ cs) phase (some a) h m s
      = scanDuration cs phase (some (ds.foldl digitStep a)) h m s := by
  induction ds generalizing a with
  | nil => rfl
  | cons d ds ih =>
    have hdd : d.isDigit = true := hd d (List.mem_cons_self d ds)
    rw [List.cons_append, scan_cons_digit d _ _ _ _ _ _ hdd]
    simp only [Option.getD_some, List.foldl_cons]
    exact ih (digitStep a d) fun c hc => hd c (List.mem_cons_of_mem d hc)

/-- Scanning a nonempty digit run with no pending value yields the value of
the run as the pending value. -/
lemma scan_digits_start (ds : List Char) (cs : List Char) (phase : Nat)
    (h m s : Option Nat) (hds : goodDigits ds) :
    scanDuration (ds ++ cs) phase none h m s
      = scanDuration cs phase (some (digitsVal ds)) h m s := by
  obtain ⟨hne, hdig⟩ := hds
  obtain ⟨d, ds', rfl⟩ := List.exists_cons_of_ne_nil hne
  rw [List.cons_append, scan_cons_digit d _ _ _ _ _ _ (hdig d (List.mem_cons_self d ds'))]
  rw [scan_digits ds' cs phase _ h m s fun c hc => hdig c (List.mem_cons_of_mem d hc)]
  rfl

/-- One h segment at the front, in phase 0. -/
lemma scan_seg_h (ds : List Char) (cs : List Char) (h m s : Option Nat)
    (hds : goodDigits ds) :
    scanDuration (seg ds 'h' ++ cs) 0 none h m s
      = scanDuration cs 0 none (some (digitsVal ds)) m s := by
  rw [seg, List.append_assoc, scan_digits_start ds _ 0 h m s hds, List.singleton_append,
    scan_cons_h]

/-- One m segment at the front, in phase at most 1. -/
lemma scan_seg_m (ds : List Char) (cs : List Char) (phase : Nat)
    (h m s : Option Nat) (hp : phase ≤ 1) (hds : goodDigits ds) :
    scanDuration (seg ds 'm' ++ cs) phase none h m s
      = scanDuration cs 1 none h (some (digitsVal ds)) s := by
  rw [seg, List.append_assoc, scan_digits_start ds _ phase h m s hds, List.singleton_append,
    scan_cons_m _ _ _ _ _ _ hp]

/-- One s segment at the front, in any phase. -/
lemma scan_seg_s (ds : List Char) (cs : List Char) (phase : Nat)
    (h m s : Option Nat) (hds : goodDigits ds) :
    scanDuration (seg ds 's' ++ cs) phase none h m s
      = scanDuration cs 2 none h m (some (digitsVal ds)) := by
  rw [seg, List.append_assoc, scan_digits_start ds _ phase h m s hds, List.singleton_append,
    scan_cons_s]

/-- A run of h segments updates the h capture register last-wins and stays in
phase 0. -/
lemma scan_run_h (dss : List (List Char)) (cs : List Char) (h m s : Option Nat)
    (hgood : ∀ ds ∈ dss, goodDigits ds) :
    scanDuration (segs dss 'h' ++ cs) 0 none h m s
      = scanDuration cs 0 none (runLast dss h) m s := by
  induction dss generalizing h with
  | nil => simp [segs, runLast]
  | cons ds dss ih =>
    have : segs (ds :: dss) 'h' = seg ds 'h' ++ segs dss 'h' := by
      simp [segs]
    rw [this, List.append_assoc, scan_seg_h ds _ h m s (hgood ds (List.mem_cons_self ds dss))]
    rw [ih (some (digitsVal ds)) fun d hd => hgood d (List.mem_cons_of_mem ds hd)]
    rfl

/-- A run of m segments updates the m capture register last-wins; phase moves
to 1 as soon as one segment is consumed. -/
lemma scan_run_m (dss : List (List Char)) (cs : List Char) (phase : Nat)
    (h m s : Option Nat) (hp : phase ≤ 1)
    (hgood : ∀ ds ∈ dss, goodDigits ds) :
    scanDuration (segs dss 'm' ++ cs) phase none h m s
      = scanDuration cs (if dss = [] then phase else 1) none h (runLast dss m) s := by
  induction dss generalizing phase m with
  | nil => simp [segs, runLast]
  | cons ds dss ih =>
    have hseg : segs (ds :: dss) 'm' = seg ds 'm' ++ segs dss 'm' := by
      simp [segs]
    rw [hseg, List.append_assoc,
      scan_seg_m ds _ phase h m s hp (hgood ds (List.mem_cons_self ds dss))]
    rw [ih 1 (some (digitsVal ds)) le_rfl fun d hd => hgood d (List.mem_cons_of_mem ds hd)]
    simp [runLast]

/-- A run of s segments updates the s capture register last-wins; phase moves
to 2 as soon as one segment is consumed. -/
lemma scan_run_s (dss : List (List Char)) (cs : List Char) (phase : Nat)
    (h m s : Option Nat) (hgood : ∀ ds ∈ dss, goodDigits ds) :
    scanDuration (segs dss 's' ++ cs) phase none h m s
      = scanDuration cs (if dss = [] then phase else 2) none h m (runLast dss s) := by
  induction dss generalizing phase s with
  | nil => simp [segs, runLast]
  | cons ds dss ih =>
    have hseg : segs (ds :: dss) 's' = seg ds 's' ++ segs dss 's' := by
      simp [segs]
    rw [hseg, List.append_assoc,
      scan_seg_s ds _ phase h m s (hgood ds (List.mem_cons_self ds dss))]
    rw [ih 2 (some (digitsVal ds)) fun d hd => hgood d (List.mem_cons_of_mem ds hd)]
    simp [runLast]

/-- On a nonempty list of runs, the last-wins register holds the value of the
last run, whatever it started from. -/
lemma runLast_ne_nil (dss : List (List Char)) (a : Option Nat) (hne : dss ≠ []) :
    runLast dss a = some (lastVal dss) := by
  induction dss generalizing a with
  | nil => exact absurd rfl hne
  | cons ds rest ih =>
    cases rest with
    | nil => rfl
    | cons ds2 rest2 =>
      rw [runLast, ih (some (digitsVal ds)) (List.cons_ne_nil ds2 rest2)]
      rfl

/-- Reading the last-wins register started from none with default 0 computes
lastVal. -/
lemma runLast_none_getD (dss : List (List Char)) :
    (runLast dss none).getD 0 = lastVal dss := by
  cases dss with
  | nil => rfl
  | cons ds rest =>
    rw [runLast_ne_nil (ds :: rest) _ (List.cons_ne_nil ds rest)]
    rfl

/-- A segment is never the empty character list. -/
lemma seg_ne_nil (ds : List Char) (u : Char) : seg ds u ≠ [] := by
  simp [seg]

/-- A nonempty list of runs produces a nonempty character list. -/
lemma segs_eq_nil_iff (dss : List (List Char)) (u : Char) :
    segs dss u = [] ↔ dss = [] := by
  constructor
  · intro hnil
    cases dss with
    | nil => rfl
    | cons ds rest =>
      exfalso
      have : seg ds u ++ segs rest u = [] := by
        simpa [segs] using hnil
      exact seg_ne_nil ds u (List.append_eq_nil.mp this).1
  · intro h
    subst h
    rfl

/-- Central decomposition theorem: parseTimeString on any concatenation of h
segments, then m segments, then s segments (each list possibly empty,
repetitions allowed) returns, per unit, the value of the last segment of that
unit, 0 when the unit has no segment. -/
theorem parse_segs_general (hss mss sss : List (List Char))
    (hh : ∀ ds ∈ hss, goodDigits ds) (hm : ∀ ds ∈ mss, goodDigits ds)
    (hs : ∀ ds ∈ sss, goodDigits ds) :
    parseTimeString ⟨segs hss 'h' ++ (segs mss 'm' ++ segs sss 's')⟩
      = ⟨lastVal hss, lastVal mss, lastVal sss⟩ := by
  by_cases hnil : segs hss 'h' ++ (segs mss 'm' ++ segs sss 's') = []
  · obtain ⟨h1, hrest⟩ := List.append_eq_nil.mp hnil
    obtain ⟨h2, h3⟩ := List.append_eq_nil.mp hrest
    have e1 : hss = [] := (segs_eq_nil_iff hss 'h').mp h1
    have e2 : mss = [] := (segs_eq_nil_iff mss 'm').mp h2
    have e3 : sss = [] := (segs_eq_nil_iff sss 's').mp h3
    subst e1; subst e2; subst e3
    rfl
  · have hne : (⟨segs hss 'h' ++ (segs mss 'm' ++ segs sss 's')⟩ : String) ≠ "" := by
      intro hcontra
      exact hnil (by simpa using congrArg String.data hcontra)
    rw [parseTimeString, if_neg hne]
    have hmatch : matchDuration ⟨segs hss 'h' ++ (segs mss 'm' ++ segs sss 's')⟩
        = some (runLast hss none, runLast mss none, runLast sss none) := by
      show scanDuration (segs hss 'h' ++ (segs mss 'm' ++ segs sss 's')) 0 none none none none
        = some (runLast hss none, runLast mss none, runLast sss none)
      rw [scan_run_h hss _ none none none hh]
      rw [scan_run_m mss _ 0 _ none none (Nat.zero_le 1) hm]
      rw [← List.append_nil (segs sss 's'), scan_run_s sss [] _ _ _ none hs]
      exact scanDuration_nil _ _ _ _
    rw [hmatch]
    simp [runLast_none_getD]

/-- Digit characters emitted by decRun are digits. -/
lemma ofNat_digit_isDigit (d : Nat) (hd : d < 10) :
    (Char.ofNat (48 + d)).isDigit = true := by
  interval_cases d <;> decide

/-- Code point of a digit character emitted by decRun. -/
lemma ofNat_digit_toNat (d : Nat) (hd : d < 10) :
    (Char.ofNat (48 + d)).toNat = 48 + d := by
  interval_cases d <;> decide

/-- Appending after a decRun rendering is the same as rendering onto the
appended tail. -/
lemma decRun_append (fuel : Nat) :
    ∀ (n : Nat) (acc rest : List Char),
      decRun fuel n acc ++ rest = decRun fuel n (acc ++ rest) := by
  induction fuel with
  | zero => intro n acc rest; rfl
  | succ fuel ih =>
    intro n acc rest
    rw [decRun, decRun]
    by_cases h10 : n < 10
    · simp [h10]
    · simp only [if_neg h10]
      exact ih (n / 10) _ rest

/-- Scanning the decimal rendering of n accumulates exactly n as the pending
digit run. -/
lemma scan_decRun (fuel : Nat) :
    ∀ (n : Nat) (rest : List Char) (phase : Nat) (h m s : Option Nat),
      n < fuel →
      scanDuration (decRun fuel n rest) phase none h m s
        = scanDuration rest phase (some n) h m s := by
  induction fuel with
  | zero => intro n _ _ _ _ _ hn; exact absurd hn (Nat.not_lt_zero n)
  | succ fuel ih =>
    intro n rest phase h m s hn
    rw [decRun]
    by_cases h10 : n < 10
    · simp only [if_pos h10]
      rw [scan_cons_digit _ _ _ _ _ _ _ (ofNat_digit_isDigit (n % 10) (Nat.mod_lt n (by omega)))]
      have hv : digitStep ((none : Option Nat).getD 0) (Char.ofNat (48 + n % 10)) = n := by
        rw [digitStep, ofNat_digit_toNat (n % 10) (Nat.mod_lt n (by omega))]
        simp only [Option.getD_none]
        omega
      rw [hv]
    · simp only [if_neg h10]
      have hdiv : n / 10 < fuel := by
        have := Nat.div_lt_self (show 0 < n by omega) (show 1 < 10 by omega)
        omega
      rw [ih (n / 10) _ phase h m s hdiv]
      rw [scan_cons_digit _ _ _ _ _ _ _ (ofNat_digit_isDigit (n % 10) (Nat.mod_lt n (by omega)))]
      have hv : digitStep ((some (n / 10)).getD 0) (Char.ofNat (48 + n % 10)) = n := by
        rw [digitStep, ofNat_digit_toNat (n % 10) (Nat.mod_lt n (by omega))]
        simp only [Option.getD_some]
        omega
      rw [hv]

/-- Character data of a formatted single-unit duration. -/
lemma formatDuration_data (n : Nat) (u : Char) :
    formatDuration n ⟨[u]⟩ = ⟨decRun (n + 1) n [u]⟩ := by
  show (⟨decRun (n + 1) n []⟩ : String) ++ ⟨[u]⟩ = ⟨decRun (n + 1) n [u]⟩
  have : (⟨decRun (n + 1) n []⟩ : String) ++ ⟨[u]⟩ = ⟨decRun (n + 1) n [] ++ [u]⟩ := rfl
  rw [this, decRun_append]
  rfl

/-- A formatted single-unit duration is never the empty string. -/
lemma decRun_unit_ne_empty (n : Nat) (u : Char) :
    (⟨decRun (n + 1) n [u]⟩ : String) ≠ "" := by
  intro hcontra
  have hdata : decRun (n + 1) n [u] = [] := by
    simpa using congrArg String.data hcontra
  have h2 : decRun (n + 1) n [] ++ [u] = decRun (n + 1) n [u] := by
    simpa using decRun_append (n + 1) n [] [u]
  rw [← h2] at hdata
  exact List.cons_ne_nil u [] (List.append_eq_nil.mp hdata).2

/-- Parsing back a formatted hour value. -/
lemma parse_format_h (n : Nat) : parseTimeString (formatDuration n "h") = ⟨n, 0, 0⟩ := by
  have hu : ("h" : String) = ⟨['h']⟩ := rfl
  rw [hu, formatDuration_data, parseTimeString, if_neg (decRun_unit_ne_empty n 'h')]
  have hmatch : matchDuration ⟨decRun (n + 1) n ['h']⟩ = some (some n, none, none) := by
    show scanDuration (decRun (n + 1) n ['h']) 0 none none none none = _
    rw [scan_decRun (n + 1) n ['h'] 0 none none none (Nat.lt_succ_self n), scan_cons_h]
    rfl
  rw [hmatch]
  rfl

/-- Parsing back a formatted minute value. -/
lemma parse_format_m (n : Nat) : parseTimeString (formatDuration n "m") = ⟨0, n, 0⟩ := by
  have hu : ("m" : String) = ⟨['m']⟩ := rfl
  rw [hu, formatDuration_data, parseTimeString, if_neg (decRun_unit_ne_empty n 'm')]
  have hmatch : matchDuration ⟨decRun (n + 1) n ['m']⟩ = some (none, some n, none) := by
    show scanDuration (decRun (n + 1) n ['m']) 0 none none none none = _
    rw [scan_decRun (n + 1) n ['m'] 0 none none none (Nat.lt_succ_self n),
      scan_cons_m _ _ _ _ _ _ (Nat.zero_le 1)]
    rfl
  rw [hmatch]
  rfl

/-- Parsing back a formatted second value. -/
lemma parse_format_s (n : Nat) : parseTimeString (formatDuration n "s") = ⟨0, 0, n⟩ := by
  have hu : ("s" : String) = ⟨['s']⟩ := rfl
  rw [hu, formatDuration_data, parseTimeString, if_neg (decRun_unit_ne_empty n 's')]
  have hmatch : matchDuration ⟨decRun (n + 1) n ['s']⟩ = some (none, none, some n) := by
    show scanDuration (decRun (n + 1) n ['s']) 0 none none none none = _
    rw [scan_decRun (n + 1) n ['s'] 0 none none none (Nat.lt_succ_self n), scan_cons_s]
    rfl
  rw [hmatch]
  rfl

/-- C3 counterexample: the string 1h2h does not match the grammar
(\d+h)?(\d+m)?(\d+s)? the claim quantifies over, yet parseTimeString does
not return the zero duration on it, because the regex in the code quantifies
each group with a star and therefore accepts the repeated h segment. -/
theorem c3_counterexample :
    specOrderedOptGrammar "1h2h" = false ∧ parseTimeString "1h2h" ≠ ⟨0, 0, 0⟩ := by
  constructor
  · decide
  · decide

/-- C3 amended: for every input string rejected by the regular expression the
code actually uses, namely ((\d+)h)*((\d+)m)*((\d+)s)* with repetitions
allowed, parseTimeString returns the zero duration; being a total function,
it raises no error on any input. -/
theorem c3_nonmatching_zero (s : String) (h : matchDuration s = none) :
    parseTimeString s = ⟨0, 0, 0⟩ := by
  simp only [parseTimeString, h]
  split <;> rfl

/-- C3 witness: the string garbage is rejected by the regex of the code and
parseTimeString falls back to the zero duration on it. -/
theorem c3_nonmatching_zero_witness :
    matchDuration "garbage" = none ∧ parseTimeString "garbage" = ⟨0, 0, 0⟩ :=
  ⟨by decide, c3_nonmatching_zero "garbage" (by decide)⟩

/-- C6: for every string built from the grammar (\d+h)?(\d+m)?(\d+s)? in
that fixed order, each segment present at most once (the empty string
included), parseTimeString returns the base-10 values of the present
segments and 0 for the absent ones. -/
theorem c6_matching_grammar_values (oh om os : Option (List Char))
    (hh : ∀ ds, oh = some ds → goodDigits ds)
    (hm : ∀ ds, om = some ds → goodDigits ds)
    (hs : ∀ ds, os = some ds → goodDigits ds) :
    parseTimeString ⟨optSeg oh 'h' ++ (optSeg om 'm' ++ optSeg os 's')⟩
      = ⟨optVal oh, optVal om, optVal os⟩ := by
  have e : ∀ (o : Option (List Char)) (u : Char),
      optSeg o u = segs (o.elim [] fun ds => [ds]) u := by
    intro o u
    cases o <;> simp [optSeg, segs]
  have good : ∀ (o : Option (List Char)), (∀ ds, o = some ds → goodDigits ds) →
      ∀ ds ∈ (o.elim [] fun ds => [ds] : List (List Char)), goodDigits ds := by
    intro o ho ds hmem
    cases o with
    | none => simp at hmem
    | some a =>
      simp at hmem
      subst hmem
      exact ho _ rfl
  rw [e oh 'h', e om 'm', e os 's',
    parse_segs_general _ _ _ (good oh hh) (good om hm) (good os hs)]
  cases oh <;> cases om <;> cases os <;> rfl

/-- C6 witness: the two worked examples of the claim, derived from the
grammar theorem at concrete digit runs. -/
theorem c6_matching_grammar_values_witness :
    parseTimeString "2h30m15s" = ⟨2, 30, 15⟩ ∧ parseTimeString "45m" = ⟨0, 45, 0⟩ := by
  constructor
  · have h := c6_matching_grammar_values (some ['2']) (some ['3', '0']) (some ['1', '5'])
      (fun ds hds => by cases hds; decide)
      (fun ds hds => by cases hds; decide)
      (fun ds hds => by cases hds; decide)
    have e : (⟨optSeg (some ['2']) 'h' ++
        (optSeg (some ['3', '0']) 'm' ++ optSeg (some ['1', '5']) 's')⟩ : String)
        = "2h30m15s" := rfl
    rw [e] at h
    rw [h]
    decide
  · have h := c6_matching_grammar_values none (some ['4', '5']) none
      (fun ds hds => by cases hds)
      (fun ds hds => by cases hds; decide)
      (fun ds hds => by cases hds)
    have e : (⟨optSeg (none : Option (List Char)) 'h' ++
        (optSeg (some ['4', '5']) 'm' ++ optSeg (none : Option (List Char)) 's')⟩ : String)
        = "45m" := rfl
    rw [e] at h
    rw [h]
    decide

/-- C10: strings with repeated unit segments (in the fixed h, m, s order of
the groups) are accepted, because each group of the regex is starred rather
than optional, and each unit reports the value of the LAST segment of that
unit rather than falling back to the zero duration. -/
theorem c10_repeated_segments (hss mss sss : List (List Char))
    (hh : ∀ ds ∈ hss, goodDigits ds) (hm : ∀ ds ∈ mss, goodDigits ds)
    (hs : ∀ ds ∈ sss, goodDigits ds) :
    parseTimeString ⟨segs hss 'h' ++ (segs mss 'm' ++ segs sss 's')⟩
      = ⟨lastVal hss, lastVal mss, lastVal sss⟩ :=
  parse_segs_general hss mss sss hh hm hs

/-- C10 witness: the repeated-segment string 1h2h30m parses to the last h
value 2, not to the zero duration. -/
theorem c10_repeated_segments_witness :
    parseTimeString "1h2h30m" = ⟨2, 30, 0⟩ ∧ parseTimeString "1h2h30m" ≠ ⟨0, 0, 0⟩ := by
  have h := c10_repeated_segments [['1'], ['2']] [['3', '0']] []
    (by decide) (by decide) (by decide)
  have e : (⟨segs [['1'], ['2']] 'h' ++ (segs [['3', '0']] 'm' ++ segs [] 's')⟩ : String)
      = "1h2h30m" := rfl
  rw [e] at h
  constructor
  · rw [h]
    decide
  · rw [h]
    decide

/-- C7: getMostSignificantTime returns the magnitude and unit of the highest
precedence nonzero field under hours before minutes before seconds,
discarding the lower precedence fields, and returns magnitude 0 with unit s
when every field is zero (the third clause with seconds 0). -/
theorem c7_most_significant_unit (d : Duration) :
    (d.hours ≠ 0 → getMostSignificantTime d = ⟨d.hours, "h"⟩) ∧
    (d.hours = 0 → d.minutes ≠ 0 → getMostSignificantTime d = ⟨d.minutes, "m"⟩) ∧
    (d.hours = 0 → d.minutes = 0 → getMostSignificantTime d = ⟨d.seconds, "s"⟩) := by
  refine ⟨fun h1 => ?_, fun h1 h2 => ?_, fun h1 h2 => ?_⟩
  · simp [getMostSignificantTime, h1]
  · simp [getMostSignificantTime, h1, h2]
  · simp [getMostSignificantTime, h1, h2]

/-- C7 witness: the two worked examples of the claim. -/
theorem c7_most_significant_unit_witness :
    getMostSignificantTime ⟨2, 30, 15⟩ = ⟨2, "h"⟩ ∧
    getMostSignificantTime ⟨0, 0, 0⟩ = ⟨0, "s"⟩ :=
  ⟨(c7_most_significant_unit ⟨2, 30, 15⟩).1 (by decide),
   (c7_most_significant_unit ⟨0, 0, 0⟩).2.2 rfl rfl⟩

/-- C8: on a duration with exactly one nonzero field, reducing to the most
significant unit and formatting yields exactly the decimal magnitude
followed by the unit letter, and parseTimeString on that string recovers the
original duration. -/
theorem c8_single_unit_roundtrip (d : Duration)
    (hone : (d.hours ≠ 0 ∧ d.minutes = 0 ∧ d.seconds = 0) ∨
            (d.hours = 0 ∧ d.minutes ≠ 0 ∧ d.seconds = 0) ∨
            (d.hours = 0 ∧ d.minutes = 0 ∧ d.seconds ≠ 0)) :
    (d.hours ≠ 0 →
      formatDuration (getMostSignificantTime d).timeNumber (getMostSignificantTime d).timeUnit
        = natToStr d.hours ++ "h") ∧
    (d.minutes ≠ 0 →
      formatDuration (getMostSignificantTime d).timeNumber (getMostSignificantTime d).timeUnit
        = natToStr d.minutes ++ "m") ∧
    (d.seconds ≠ 0 →
      formatDuration (getMostSignificantTime d).timeNumber (getMostSignificantTime d).timeUnit
        = natToStr d.seconds ++ "s") ∧
    parseTimeString
        (formatDuration (getMostSignificantTime d).timeNumber (getMostSignificantTime d).timeUnit)
      = d := by
  obtain ⟨a, b, c⟩ := d
  obtain ⟨h1, h2, h3⟩ | ⟨h1, h2, h3⟩ | ⟨h1, h2, h3⟩ := hone
  · simp only at h1 h2 h3
    subst h2; subst h3
    have hg : getMostSignificantTime ⟨a, 0, 0⟩ = ⟨a, "h"⟩ := by
      simp [getMostSignificantTime, h1]
    refine ⟨fun _ => by rw [hg]; rfl, fun hb => absurd rfl hb, fun hc => absurd rfl hc, ?_⟩

    rw [hg]
    exact parse_format_h a
  · simp only at h1 h2 h3
    subst h1; subst h3
    have hg : getMostSignificantTime ⟨0, b, 0⟩ = ⟨b, "m"⟩ := by
      simp [getMostSignificantTime, h2]
    refine ⟨fun ha => absurd rfl ha, fun _ => by rw [hg]; rfl, fun hc => absurd rfl hc, ?_⟩
    rw [hg]
    exact parse_format_m b
  · simp only at h1 h2 h3
    subst h1; subst h2
    have hg : getMostSignificantTime ⟨0, 0, c⟩ = ⟨c, "s"⟩ := by
      simp [getMostSignificantTime]
    refine ⟨fun ha => absurd rfl ha, fun hb => absurd rfl hb, fun _ => by rw [hg]; rfl, ?_⟩
    rw [hg]
    exact parse_format_s c

/-- C8 witness: the worked example of the claim, a duration of exactly five
minutes round-trips through the string 5m. -/
theorem c8_single_unit_roundtrip_witness :
    formatDuration (getMostSignificantTime ⟨0, 5, 0⟩).timeNumber
        (getMostSignificantTime ⟨0, 5, 0⟩).timeUnit = "5m" ∧
    parseTimeString "5m" = ⟨0, 5, 0⟩ := by
  obtain ⟨-, hf, -, hp⟩ :=
    c8_single_unit_roundtrip ⟨0, 5, 0⟩ (Or.inr (Or.inl ⟨rfl, by decide, rfl⟩))
  have hm := hf (by decide)
  have e : natToStr 5 ++ "m" = "5m" := by decide
  rw [hm, e] at hp
  exact ⟨by rw [hm, e], hp⟩

/-- Computation of getThresholdExpression on the matching shape when the
selector carries a labels object: the object at its reference is overwritten
with the filtered labels and that same reference is returned in the record. -/
lemma getThresholdExpression_comp_some (store : List Labels) (c : BinaryComparator)
    (name : Option String) (r : Nat) (v : Int) :
    getThresholdExpression store
        (.binaryOperation (.comp c) (.instantSelector name (some r)) (.scalar v))
      = (store.set r (((store.get? r).getD ⟨[]⟩).removeByName "networkID"),
         some ⟨name.getD "", r, c, v⟩) := rfl

/-- Computation of getThresholdExpression on the matching shape when the
selector carries no labels object: a fresh empty Labels is allocated at the
end of the store. -/
lemma getThresholdExpression_comp_none (store : List Labels) (c : BinaryComparator)
    (name : Option String) (v : Int) :
    getThresholdExpression store
        (.binaryOperation (.comp c) (.instantSelector name none) (.scalar v))
      = ((store ++ [(⟨[]⟩ : Labels)]).set store.length
           ((((store ++ [(⟨[]⟩ : Labels)]).get? store.length).getD ⟨[]⟩).removeByName
             "networkID"),
         some ⟨name.getD "", store.length, c, v⟩) := rfl

/-- Computation of getThresholdExpression on the matching shape with a
non-comparator operator: the record is null (though the store is still
mutated first). -/
lemma getThresholdExpression_arith (store : List Labels) (o : String)
    (name : Option String) (labels : Option Nat) (v : Int) :
    (getThresholdExpression store
        (.binaryOperation (.arith o) (.instantSelector name labels) (.scalar v))).2
      = none := by
  cases labels <;> rfl

/-- Labels filtered by removeByName never contain the removed name. -/
lemma removeByName_not_mem (l : Labels) (n : String) :
    ∀ p ∈ (l.removeByName n).pairs, p.1 ≠ n := by
  intro p hp
  have := List.of_mem_filter hp
  simpa using this

/-- C4: getThresholdExpression returns null unless the expression is a
binary comparison of an instant selector against a scalar; on exactly that
shape it returns the selector name (empty when absent), the binary operator
as comparator, the scalar as value, and as filters the selector labels with
the reserved label networkID removed, so the returned filters never contain
networkID. -/
theorem c4_extract_threshold :
    (∀ (store : List Labels) (exp : Expression),
      (∀ (c : BinaryComparator) (name : Option String) (labels : Option Nat) (v : Int),
        exp ≠ .binaryOperation (.comp c) (.instantSelector name labels) (.scalar v)) →
      (getThresholdExpression store exp).2 = none) ∧
    (∀ (store : List Labels) (c : BinaryComparator) (name : Option String)
        (labels : Option Nat) (v : Int),
      (∀ r, labels = some r → r < store.length) →
      (getThresholdExpression store
          (.binaryOperation (.comp c) (.instantSelector name labels) (.scalar v))).2
        = some ⟨name.getD "", thresholdFiltersRef store labels, c, v⟩ ∧
      ((getThresholdExpression store
          (.binaryOperation (.comp c) (.instantSelector name labels) (.scalar v))).1.get?
            (thresholdFiltersRef store labels)).getD ⟨[]⟩
        = (labelsValue store labels).removeByName "networkID" ∧
      ∀ p ∈ ((labelsValue store labels).removeByName "networkID").pairs,
        p.1 ≠ "networkID") := by
  constructor
  · intro store exp hne
    cases exp with
    | binaryOperation op lh rh =>
      cases lh with
      | instantSelector name labels =>
        cases rh with
        | scalar v =>
          cases op with
          | comp c => exact absurd rfl (hne c name labels v)
          | arith o => exact getThresholdExpression_arith store o name labels v
        | binaryOperation o2 l2 r2 => rfl
        | instantSelector n2 l2 => rfl
        | otherNode => rfl
      | binaryOperation o2 l2 r2 => cases rh <;> rfl
      | scalar v2 => cases rh <;> rfl
      | otherNode => cases rh <;> rfl
    | instantSelector name labels => rfl
    | scalar v => rfl
    | otherNode => rfl
  · intro store c name labels v hr
    cases labels with
    | some r =>
      have hrlt : r < store.length := hr r rfl
      rw [getThresholdExpression_comp_some]
      refine ⟨rfl, ?_, removeByName_not_mem _ _⟩
      show ((store.set r _).get? r).getD ⟨[]⟩ = _
      rw [List.get?_set_eq_of_lt _ hrlt]
      rfl
    | none =>
      rw [getThresholdExpression_comp_none]
      refine ⟨rfl, ?_, removeByName_not_mem _ _⟩
      have et : thresholdFiltersRef store none = store.length := rfl
      rw [et, List.get?_concat_length store (⟨[]⟩ : Labels),
        List.get?_set_eq_of_lt _
          (by simp only [List.length_append, List.length_cons, List.length_nil]; omega)]
      rfl

/-- C4 witness: the worked example of the spec, a comparison of cpu_util
against 90 with a networkID label on the selector, plus a non-matching
expression variant. -/
theorem c4_extract_threshold_witness :
    (getThresholdExpression [] Expression.otherNode).2 = none ∧
    (getThresholdExpression [⟨[("networkID", "abc"), ("code", "500")]⟩]
        (.binaryOperation (.comp .gt)
          (.instantSelector (some "cpu_util") (some 0)) (.scalar 90))).2
      = some ⟨"cpu_util", 0, .gt, 90⟩ ∧
    ((getThresholdExpression [⟨[("networkID", "abc"), ("code", "500")]⟩]
        (.binaryOperation (.comp .gt)
          (.instantSelector (some "cpu_util") (some 0)) (.scalar 90))).1.get? 0).getD ⟨[]⟩
      = ⟨[("code", "500")]⟩ := by
  have hmatch := c4_extract_threshold.2 [⟨[("networkID", "abc"), ("code", "500")]⟩]
    .gt (some "cpu_util") (some 0) 90 (fun r hr => by cases hr; decide)
  have e : thresholdFiltersRef [⟨[("networkID", "abc"), ("code", "500")]⟩] (some 0) = 0 := rfl
  rw [e] at hmatch
  refine ⟨c4_extract_threshold.1 [] .otherNode (fun c name labels v h => nomatch h), ?_, ?_⟩
  · rw [hmatch.1]
    rfl
  · rw [hmatch.2.1]
    decide

/-- C5: a binary operation of an instant selector against a scalar whose
operator is not one of the six comparators, for instance an arithmetic
operator, extracts to null. -/
theorem c5_non_comparator_null (store : List Labels) (op : BinaryOperator)
    (name : Option String) (labels : Option Nat) (v : Int)
    (hop : ∀ c : BinaryComparator, op ≠ .comp c) :
    (getThresholdExpression store
        (.binaryOperation op (.instantSelector name labels) (.scalar v))).2 = none := by
  cases op with
  | comp c => exact absurd rfl (hop c)
  | arith o => exact getThresholdExpression_arith store o name labels v

/-- C5 witness: an arithmetic sum shape extracts to null. -/
theorem c5_non_comparator_null_witness :
    (getThresholdExpression []
        (.binaryOperation (.arith "+")
          (.instantSelector (some "cpu_util") none) (.scalar 90))).2 = none :=
  c5_non_comparator_null [] (.arith "+") (some "cpu_util") none 90 (fun _ h => nomatch h)

/-- C9: on a successful extraction from a selector that carries a labels
object, the returned filters reference is the very same object reference as
the selector labels (no defensive copy), that object is overwritten in place
with networkID removed, no new object is allocated, and every other object
of the store is untouched: the input AST labels are mutated. -/
theorem c9_in_place_label_removal (store : List Labels) (r : Nat)
    (name : Option String) (c : BinaryComparator) (v : Int) (hr : r < store.length) :
    (getThresholdExpression store
        (.binaryOperation (.comp c) (.instantSelector name (some r)) (.scalar v))).2
      = some ⟨name.getD "", r, c, v⟩ ∧
    (getThresholdExpression store
        (.binaryOperation (.comp c) (.instantSelector name (some r)) (.scalar v))).1.length
      = store.length ∧
    (getThresholdExpression store
        (.binaryOperation (.comp c) (.instantSelector name (some r)) (.scalar v))).1.get? r
      = some (((store.get? r).getD ⟨[]⟩).removeByName "networkID") ∧
    ∀ i, i ≠ r →
      (getThresholdExpression store
          (.binaryOperation (.comp c) (.instantSelector name (some r)) (.scalar v))).1.get? i
        = store.get? i := by
  rw [getThresholdExpression_comp_some]
  refine ⟨rfl, List.length_set store r _, ?_, ?_⟩
  · exact List.get?_set_eq_of_lt _ hr
  · intro i hi
    exact List.get?_set_ne _ store (fun e => hi e.symm)

/-- C9 witness: extracting from a store holding one labels object shows the
object itself is filtered in place and returned by reference. -/
theorem c9_in_place_label_removal_witness :
    (getThresholdExpression [⟨[("networkID", "abc"), ("x", "1")]⟩]
        (.binaryOperation (.comp .lt)
          (.instantSelector (some "mem") (some 0)) (.scalar 7))).2
      = some ⟨"mem", 0, .lt, 7⟩ ∧
    (getThresholdExpression [⟨[("networkID", "abc"), ("x", "1")]⟩]
        (.binaryOperation (.comp .lt)
          (.instantSelector (some "mem") (some 0)) (.scalar 7))).1.get? 0
      = some ⟨[("x", "1")]⟩ := by
  have h := c9_in_place_label_removal [⟨[("networkID", "abc"), ("x", "1")]⟩] 0
    (some "mem") .lt 7 (by decide)
  refine ⟨h.1, ?_⟩
  rw [h.2.2.1]
  decide

/-- The effect body never changes the effectRan flag. -/
lemma effectBody_effectRan (parse : ParserFn) (expression : Option String)
    (s : EditorState) : (effectBody parse expression s).effectRan = s.effectRan := by
  unfold effectBody
  split
  · rfl
  · split
    · split
      · rfl
      · rfl
    · rfl

/-- A render commit on a state whose effect has already run changes nothing. -/
lemma renderStep_ran (parse : ParserFn) (expression : Option String)
    (s : EditorState) (h : s.effectRan = true) :
    renderStep parse expression s = s := by
  unfold renderStep
  rw [if_pos h]

/-- After any committed render the effect has run. -/
lemma renderStep_effectRan (parse : ParserFn) (expression : Option String)
    (s : EditorState) : (renderStep parse expression s).effectRan = true := by
  unfold renderStep
  split
  · assumption
  · rw [effectBody_effectRan]

/-- The hook state is stable after the first committed render: later renders
change nothing, because the memoized parse result never changes. -/
lemma stateAfterRenders_stable (parse : ParserFn) (expression : Option String)
    (enabled : Option Bool) (n : Nat) :
    stateAfterRenders parse expression enabled (n + 1)
      = stateAfterRenders parse expression enabled 1 := by
  induction n with
  | zero => rfl
  | succ n ih =>
    have h1 : (stateAfterRenders parse expression enabled 1).effectRan = true :=
      renderStep_effectRan parse expression (initialEditorState enabled)
    show renderStep parse expression (stateAfterRenders parse expression enabled (n + 1)) = _
    rw [ih, renderStep_ran parse expression _ h1]

/-- C1: with the threshold editor enabled and a non-empty expression the
parser rejects, every render count from the first commit on shows exactly
one warning (the warning is not re-triggered by re-renders) but the editor
stays in simple mode: advancedEditorMode remains false, its initial value,
because the parse-failure branch of the effect never calls
setAdvancedEditorMode, contradicting both the spec and the warning text of
the code itself. -/
theorem c1_parse_failure_behavior (n : Nat) :
    stateAfterRenders (fun _ => none) (some "(((") (some true) (n + 1)
      = ⟨defaultThresholdExpression, false, 1, true, true⟩ := by
  rw [stateAfterRenders_stable]
  decide

/-- C2 counterexample: on the empty expression string the parser IS invoked
(the memo body calls Parse(expression) unconditionally during the first
render), refuting the never-invokes part of the claim. -/
theorem c2_counterexample :
    (stateAfterRenders (fun _ => none) (some "") (some true) 1).parserInvoked = true := by
  decide

/-- C2 amended: for an empty or absent expression the memo still invokes the
parser once on mount, but its result is ignored: whatever the parser does,
the lifecycle always ends in simple mode with no warning and the zero-value
default threshold record. -/
theorem c2_empty_expression_simple_mode (parse : ParserFn) (expression : Option String)
    (enabled : Option Bool) (n : Nat) (hempty : isEmptyExpr expression = true) :
    (stateAfterRenders parse expression enabled (n + 1)).advancedEditorMode = false ∧
    (stateAfterRenders parse expression enabled (n + 1)).thresholdExpression
      = defaultThresholdExpression ∧
    (stateAfterRenders parse expression enabled (n + 1)).warningCount = 0 := by
  rw [stateAfterRenders_stable]
  have hstep : stateAfterRenders parse expression enabled 1
      = effectBody parse expression
          { initialEditorState enabled with parserInvoked := true, effectRan := true } := by
    show renderStep parse expression (initialEditorState enabled) = _
    unfold renderStep
    rw [if_neg (by simp [initialEditorState])]
  rw [hstep]
  unfold effectBody
  rw [if_pos hempty]
  exact ⟨rfl, rfl, rfl⟩

/-- C2 witness: the empty expression string with the threshold editor
enabled ends in simple mode with the default threshold and no warning. -/
theorem c2_empty_expression_simple_mode_witness :
    isEmptyExpr (some "") = true ∧
    (stateAfterRenders (fun _ => none) (some "") (some true) 1).advancedEditorMode = false ∧
    (stateAfterRenders (fun _ => none) (some "") (some true) 1).thresholdExpression
      = defaultThresholdExpression ∧
    (stateAfterRenders (fun _ => none) (some "") (some true) 1).warningCount = 0 :=
  ⟨by decide, c2_empty_expression_simple_mode (fun _ => none) (some "") (some true) 0 (by decide)⟩

end PromEditor
